import Mathlib

/-!
Verification of the `lucid-engine` scaffold script (`src/a.py`).

The script is a one-shot scaffolder: `main(project_name)` creates a base directory,
recursively materializes a fixed nested directory/file layout under it
(`create_directory_tree`), and finally overwrites four specific files with fixed
literal text.  We embed the script as a generator of a trace of filesystem
operations (`Op`), together with a semantics of those operations on an explicit
filesystem state (`FS`), mirroring the behaviour of `Path.mkdir(exist_ok=True)`,
`Path.touch()` and `open(path, "w").write(...)`.
-/

set_option maxRecDepth 8000

namespace LucidScaffold

/-- A filesystem path, as the list of name components below the working directory. -/
abbrev Path := List String

/-- Shape of the nested dict built in `main` of `a.py`: keys are dir/file names,
values are dicts for subtrees or `None` for files.  An ordered dict
`{n1: None, n2: {...}, ...}` is encoded entry by entry: `.file n1 rest` models
`"n1": None`, `.dir n2 children rest` models `"n2": {children}`, and `.nil` ends
the dict.  Entry order is the source's insertion order. -/
inductive Tree where
  | nil : Tree
  | file (name : String) (rest : Tree) : Tree
  | dir (name : String) (children : Tree) (rest : Tree) : Tree

/-- A primitive filesystem operation performed by the script:
`touch p` is `Path.touch()`, `write p c` is `open(p, "w"); f.write(c)` (create or
truncate, then write `c`), `mkdir p` is `Path.mkdir(exist_ok=True)`. -/
inductive Op where
  | touch : Path → Op
  | write : Path → String → Op
  | mkdir : Path → Op
deriving DecidableEq

/-- The path an operation acts on. -/
def Op.target : Op → Path
  | .touch p => p
  | .write p _ => p
  | .mkdir p => p

/-- The default ignore set of `create_directory_tree` (built when `ignore_files is None`). -/
def default_ignore : List String :=
  ["README.md", "Cargo.toml", "CMakeLists.txt", ".gitignore", "LICENSE.md"]

/-- Python's `s.endswith(suffix)`: suffix test on the sequence of characters. -/
def pyEndsWith (s suffix : String) : Bool := suffix.data.isSuffixOf s.data

/-- Python's `s.startswith(pre)`: prefix test on the sequence of characters. -/
def pyStartsWith (s pre : String) : Bool := pre.data.isPrefixOf s.data

/-- Mirrors `name.endswith(('.rs', '.cpp', '.h', '.py', '.lua'))` in `a.py` line 19. -/
def isCodeFile (name : String) : Bool :=
  pyEndsWith name ".rs" || pyEndsWith name ".cpp" || pyEndsWith name ".h" ||
    pyEndsWith name ".py" || pyEndsWith name ".lua"

/-- The placeholder line written into recognized source-code files
(`f"// TODO: Implement {name}\n"`, `a.py` line 21). -/
def todoLine (name : String) : String := "// TODO: Implement " ++ name ++ "\n"

/-- Operations performed for a single file entry (`a.py` lines 15-23): non-ignored
files are touched and, when the name has a recognized code extension, written with
the placeholder line; ignored files are only touched. -/
def fileOps (path : Path) (name : String) (ignore_files : List String) : List Op :=
  if ignore_files.contains name then
    [.touch path]
  else if isCodeFile name then
    [.touch path, .write path (todoLine name)]
  else
    [.touch path]

/-- Trace of operations of `create_directory_tree(base_path, tree, ignore_files)`
(`a.py` lines 5-27).  `ignore_files = none` models the Python default `None`, which
is replaced by `default_ignore` on entry.  Note that the recursive call on a
subdirectory (`a.py` line 27) passes only two arguments, hence `none`. -/
def create_directory_tree (base_path : Path) (tree : Tree)
    (ignore_files : Option (List String)) : List Op :=
  match tree with
  | .nil => []
  | .file name rest =>
      fileOps (base_path ++ [name]) name (ignore_files.getD default_ignore) ++
        create_directory_tree base_path rest ignore_files
  | .dir name children rest =>
      (.mkdir (base_path ++ [name]) ::
        create_directory_tree (base_path ++ [name]) children none) ++
        create_directory_tree base_path rest ignore_files

/-- An entry on disk: a directory, or a file with its content. -/
inductive FSEntry where
  | dir : FSEntry
  | file : String → FSEntry
deriving DecidableEq

/-- Filesystem state: an association list from paths to entries. -/
abbrev FS := List (Path × FSEntry)

/-- Look up the entry at a path. -/
def lookupFS (fs : FS) (p : Path) : Option FSEntry :=
  match fs with
  | [] => none
  | (q, e) :: rest => if q = p then some e else lookupFS rest p

/-- Set the entry at a path (replace in place if present, append otherwise). -/
def setEntry (fs : FS) (p : Path) (e : FSEntry) : FS :=
  match fs with
  | [] => [(p, e)]
  | (q, e') :: rest => if q = p then (q, e) :: rest else (q, e') :: setEntry rest p e

/-- Effect of one operation on the filesystem, in the error-free view:
`touch` creates an empty file if the path is absent and otherwise leaves the entry
alone (it only updates timestamps); `write` creates or truncates and writes the
content; `mkdir` with `exist_ok=True` creates the directory if absent. -/
def applyOp (fs : FS) : Op → FS
  | .touch p =>
      match lookupFS fs p with
      | some _ => fs
      | none => setEntry fs p (.file "")
  | .write p c => setEntry fs p (.file c)
  | .mkdir p =>
      match lookupFS fs p with
      | some _ => fs
      | none => setEntry fs p .dir

/-- Run a trace of operations from a state. -/
def run (fs : FS) (ops : List Op) : FS := ops.foldl applyOp fs

/-- Whether an entry is a directory. -/
def FSEntry.isDir : FSEntry → Bool
  | .dir => true
  | .file _ => false

/-- The kind of the entry at a path (`some true` directory, `some false` file,
`none` absent). -/
def kindAt (fs : FS) (p : Path) : Option Bool := (lookupFS fs p).map FSEntry.isDir

/-- Effect of one operation, with the error cases of the underlying Python calls:
`open(p, "w")` raises on an existing directory, `mkdir(exist_ok=True)` raises when
the existing entry is a file; `touch` succeeds whether or not the path exists. -/
def applyOpE (fs : FS) : Op → Option FS
  | .touch p => some (applyOp fs (.touch p))
  | .write p c =>
      match lookupFS fs p with
      | some .dir => none
      | _ => some (setEntry fs p (.file c))
  | .mkdir p =>
      match lookupFS fs p with
      | some (.file _) => none
      | some .dir => some fs
      | none => some (setEntry fs p .dir)

/-- Run a trace with the error-aware semantics; `none` means an uncaught exception. -/
def runO (fs : FS) : List Op → Option FS
  | [] => some fs
  | op :: rest => (applyOpE fs op).bind fun fs1 => runO fs1 rest

/-- Run a trace against an abstract failure oracle: `fail op = true` means the
environment makes that operation raise (permission denied, invalid path, ...).
The script has no `try`/`except`, so the first failure stops everything; the
returned state is what was on disk at that point, the boolean records completion. -/
def runE (fail : Op → Bool) (fs : FS) : List Op → FS × Bool
  | [] => (fs, true)
  | op :: rest => if fail op then (fs, false) else runE fail (applyOp fs op) rest

/-- Content written into `lucid-engine/README.md` after the walk (`a.py` 486-488). -/
def readme_text : String :=
  "# Lucid Engine\n\nSource-available game engine. See LICENSE.md for terms.\n\n## Setup\ncargo build --workspace\ncmake ..\n"

/-- Content written into `lucid-engine/LICENSE.md` after the walk (`a.py` 489-491). -/
def license_text : String :=
  "Lucid Engine License\n\nSource-available: Use per EULA. Royalties apply post $1M revenue.\nSDK portions MIT."

/-- Content written into `lucid-engine/build/lucid-stack-builder.py` after the walk
(`a.py` 492-494). -/
def builder_text : String :=
  "#!/usr/bin/env python3\n\nimport os\n\n# Auto-generate build configs\nprint(\x27Building Lucid stacks...\x27)\n# TODO: Implement\n"

/-- Content written into `.gitignore` after the walk (`a.py` 495-497). -/
def gitignore_text : String :=
  "# Builds\nbuilds/\ntarget/\n\n# Content temps\nContent/*.tmp\n\n# IDE\n.vscode/\n.idea/\n\n# Logs\nTelemetry/*.log\n"

/-- The four post-walk overwrites of `main` (`a.py` lines 486-497), in order. -/
def finalWrites (base : Path) : List Op :=
  [ .write (base ++ ["lucid-engine", "README.md"]) readme_text,
    .write (base ++ ["lucid-engine", "LICENSE.md"]) license_text,
    .write (base ++ ["lucid-engine", "build", "lucid-stack-builder.py"]) builder_text,
    .write (base ++ [".gitignore"]) gitignore_text ]

/-- The fixed Tree Description from `main` of `a.py` (lines 38-481), transcribed
entry by entry in source order. -/
def tree : Tree :=
  (.dir "lucid-engine"
    (.file "LICENSE.md"
    (.file "README.md"
    (.dir "build"
      (.file "CMakeLists.txt"
      (.file "lucid-stack-builder.py"
      (.file "Cargo.toml"
      (.dir "platform"
        (.file "android.toml"
        (.file "vulkan-cmake"
        .nil))
      (.dir "dist"
        (.file "lucid-trial.zip"
        (.file "lucid-full-src.tar.gz"
        .nil))
      .nil)))))
    (.dir "workspaces"
      (.file "Cargo.toml"
      (.dir "meta"
        (.dir "unicity"
          (.file "Cargo.toml"
          (.dir "src"
            (.file "lib.rs"
            (.file "graph.rs"
            (.file "reflection.rs"
            .nil)))
          (.dir "examples"
            (.file "dep_viz.rs"
            .nil)
          (.dir "tests"
            (.file "graph_cycle_test.rs"
            .nil)
          .nil))))
        (.dir "serializer"
          (.file "Cargo.toml"
          (.dir "src"
            (.file "lib.rs"
            (.file "stream.rs"
            .nil))
          (.dir "examples"
            (.file "replay_demo.rs"
            .nil)
          .nil)))
        (.dir "editor"
          (.file "Cargo.toml"
          (.dir "src"
            (.file "lib.rs"
            (.file "imgui_panels.rs"
            (.file "fusion_mode.rs"
            .nil)))
          (.dir "examples"
            (.file "live_debug.rs"
            .nil)
          .nil)))
        (.dir "neural"
          (.file "Cargo.toml"
          (.dir "src"
            (.file "lib.rs"
            (.file "models.rs"
            (.file "suggestions.rs"
            .nil)))
          (.dir "examples"
            (.file "prompt_gen.rs"
            .nil)
          .nil)))
        (.dir "qiss"
          (.file "Cargo.toml"
          (.dir "src"
            (.file "lib.rs"
            (.file "orchestrator.rs"
            .nil))
          (.dir "examples"
            (.file "cloud_preview.rs"
            .nil)
          .nil)))
        (.dir "link"
          (.file "Cargo.toml"
          (.dir "src"
            (.file "lib.rs"
            (.file "rollback.rs"
            .nil))
          (.dir "examples"
            (.file "mp_sync.rs"
            .nil)
          .nil)))
        (.dir "sdk"
          (.file "Cargo.toml"
          (.dir "src"
            (.file "lib.rs"
            (.dir "templates"
              (.file "quantum_stack.rs"
              .nil)
            .nil))
          (.dir "examples"
            (.file "custom_stack.rs"
            .nil)
          .nil)))
        .nil)))))))
      (.dir "rust"
        (.dir "lucid-ffi"
          (.file "Cargo.toml"
          (.dir "src"
            (.file "ffi.rs"
            .nil)
          .nil))
        .nil)
      .nil)))
    (.dir "stacks"
      (.dir "Lucid-Illuminati"
        (.dir "src"
          (.dir "core"
            (.file "LI_SceneGraph.cpp"
            (.file "LI_PostProcess.cpp"
            .nil))
          (.dir "features"
            (.dir "RayTracing"
              (.file "LI_PathTracer.cpp"
              (.file "LI_VXGI.cpp"
              .nil))
            (.dir "Volumetrics"
              (.file "LI_FogRenderer.cpp"
              .nil)
            (.dir "GPUCompute"
              (.file "LI_ParticleShaders.cpp"
              .nil)
            (.dir "NeuralShaders"
              (.file "LI_NeuralGen.cpp"
              .nil)
            .nil))))
          (.dir "pipelines"
            (.file "LI_ShaderVaultImporter.py"
            .nil)
          (.dir "meta-hooks"
            (.file "LI_EntityStream.cpp"
            .nil)
          .nil))))
        (.dir "include"
          .nil
        (.dir "tests"
          .nil
        (.dir "bindings"
          .nil
        .nil))))
      (.dir "Lucid-Disassembly"
        (.dir "src"
          (.dir "core"
            (.file "LD_RigidBody.cpp"
            (.file "LD_Collision.cpp"
            .nil))
          (.dir "features"
            (.dir "Destructibles"
              (.file "LD_ProceduralDebris.cpp"
              (.file "LD_ForceFields.cpp"
              .nil))
            (.dir "Fluids"
              (.file "LD_ParticleFluids.cpp"
              .nil)
            (.dir "Vehicles"
              (.file "LD_CharacterPhysics.cpp"
              .nil)
            .nil)))
          (.dir "pipelines"
            (.file "LD_PhysicsDebugger.py"
            .nil)
          (.dir "meta-hooks"
            (.file "LD_ReplayBuffer.cpp"
            .nil)
          .nil))))
        (.dir "include"
          .nil
        (.dir "tests"
          .nil
        (.dir "bindings"
          .nil
        .nil))))
      (.dir "Lucid-Harmonia"
        (.dir "src"
          (.dir "core"
            (.file "LH_SpatialMixer.cpp"
            (.file "LH_EffectsBus.cpp"
            .nil))
          (.dir "features"
            (.dir "Procedural"
              (.file "LH_DynamicTracks.cpp"
              .nil)
            (.dir "PhysicsIntegration"
              (.file "LH_EnvInteraction.cpp"
              .nil)
            .nil))
          (.dir "pipelines"
            (.file "LH_AudioImporter.py"
            .nil)
          .nil)))
        (.dir "include"
          .nil
        (.dir "tests"
          .nil
        (.dir "bindings"
          .nil
        .nil))))
      (.dir "Lucid-Diffuser"
        (.dir "src"
          (.dir "core"
            (.file "LD_InputMapper.cpp"
            (.file "LD_NetSync.cpp"
            .nil))
          (.dir "features"
            (.dir "Multiplayer"
              (.file "LD_RPCSystem.cpp"
              .nil)
            (.dir "HotReload"
              (.file "LD_ConfigReloader.cpp"
              .nil)
            .nil))
          (.dir "pipelines"
            (.file "LD_VRTracker.py"
            .nil)
          .nil)))
        (.dir "include"
          .nil
        (.dir "tests"
          .nil
        (.dir "bindings"
          .nil
        .nil))))
      (.dir "Lucid-Charisma"
        (.dir "src"
          (.dir "core"
            (.file "LC_SkeletalRig.cpp"
            (.file "LC_StateMachine.cpp"
            .nil))
          (.dir "features"
            (.dir "Procedural"
              (.file "LC_MotionBlending.cpp"
              .nil)
            (.dir "Facial"
              (.file "LC_MorphTargets.cpp"
              .nil)
            (.dir "Ragdoll"
              (.file "LC_PhysicsRagdoll.cpp"
              .nil)
            .nil)))
          (.dir "pipelines"
            (.file "LC_AnimImporter.py"
            .nil)
          .nil)))
        (.dir "include"
          .nil
        (.dir "tests"
          .nil
        (.dir "bindings"
          .nil
        .nil))))
      (.dir "Lucid-Ekpyrosa"
        (.dir "src"
          (.dir "core"
            (.file "LE_SceneEditor.cpp"
            (.file "LE_ScriptAPI.cpp"
            .nil))
          (.dir "features"
            (.dir "Procedural"
              (.file "LE_TerrainGen.cpp"
              (.file "LE_WorldPartition.cpp"
              .nil))
            (.dir "Debugging"
              (.file "LE_PerfVisualizer.cpp"
              .nil)
            .nil))
          (.dir "pipelines"
            (.file "LE_AssetPipeline.py"
            .nil)
          .nil)))
        (.dir "include"
          .nil
        (.dir "tests"
          .nil
        (.dir "bindings"
          .nil
        .nil))))
      (.dir "Lucid-Alrena"
        (.dir "src"
          (.dir "core"
            (.file "LA_BehaviorTree.cpp"
            (.file "LA_Pathfinder.cpp"
            .nil))
          (.dir "features"
            (.dir "Procedural"
              (.file "LA_ContentGen.cpp"
              .nil)
            (.dir "Adaptive"
              (.file "LA_LearningNPCs.cpp"
              .nil)
            (.dir "EventHooks"
              (.file "LA_GameLogic.cpp"
              .nil)
            .nil)))
          (.dir "pipelines"
            (.file "LA_AIDebugger.py"
            .nil)
          (.dir "meta-hooks"
            (.file "LA_NeuralAdapt.cpp"
            .nil)
          .nil))))
        (.dir "include"
          .nil
        (.dir "tests"
          .nil
        (.dir "bindings"
          .nil
        .nil))))
      (.dir "Lucid-LaunchPad"
        (.dir "src"
          (.dir "core"
            (.file "LLP_BuildSystem.cpp"
            (.file "LLP_Packager.cpp"
            .nil))
          (.dir "features"
            (.dir "HotPatching"
              (.file "LLP_Incremental.cpp"
              .nil)
            (.dir "Profiling"
              (.file "LLP_Telemetry.cpp"
              .nil)
            (.dir "Marketplace"
              (.file "LLP_PluginSystem.cpp"
              .nil)
            .nil)))
          (.dir "pipelines"
            (.file "LLP_ExportRunner.py"
            .nil)
          .nil)))
        (.dir "include"
          .nil
        (.dir "tests"
          .nil
        (.dir "bindings"
          .nil
        .nil))))
      .nil))))))))
    (.dir "core"
      (.dir "src"
        (.file "Core_ECS.cpp"
        (.file "Core_UnicityBridge.cpp"
        (.file "Core_QissTelemetry.cpp"
        .nil)))
      (.dir "include"
        .nil
      (.dir "archetypes"
        (.file "SerializableDestructible.ecs"
        (.file "NeuralNPC.ecs"
        .nil))
      .nil)))
    (.dir "plugins"
      (.dir "Lucid-QuantumExt"
        (.dir "src"
          .nil
        .nil)
      (.dir "Lucid-VRExt"
        (.dir "src"
          .nil
        .nil)
      .nil))
    .nil)))))))
  (.dir "Content"
    (.dir "Meta"
      (.dir "EditorThemes"
        .nil
      (.dir "Models"
        (.file "shader_gen.torch"
        .nil)
      .nil))
    (.dir "Blueprints"
      (.dir "Meta"
        .nil
      (.dir "Alrena"
        (.file "BT_AdaptiveGuard.uasset"
        .nil)
      (.dir "Charisma"
        .nil
      .nil)))
    (.dir "Meshes"
      (.dir "Illuminati"
        .nil
      (.dir "Disassembly"
        .nil
      (.dir "Ekpyrosa"
        .nil
      .nil)))
    (.dir "Materials"
      (.dir "Procedural"
        .nil
      .nil)
    (.dir "Sounds"
      (.dir "Procedural"
        .nil
      .nil)
    (.dir "Maps"
      (.dir "PhysicsDemo"
        .nil
      (.dir "AIDemo"
        .nil
      .nil))
    (.dir "Animations"
      (.dir "Facial"
        .nil
      .nil)
    (.dir "Textures"
      .nil
    .nil))))))))
  (.dir "Source"
    (.dir "MyLucidGame"
      (.dir "Private"
        (.file "GameOrchestrator.cpp"
        (.file "MP_Session.cpp"
        (.file "GameWorld.cpp"
        (.file "CustomAlrena.cpp"
        .nil))))
      (.dir "Public"
        .nil
      .nil))
    (.dir "Stacks-Overrides"
      (.dir "Disassembly"
        .nil
      (.dir "Neural"
        .nil
      .nil))
    .nil))
  (.dir "Config"
    (.dir "meta"
      (.file "Unicity.yaml"
      (.file "Serializer-Versioning.ini"
      (.file "Editor-Docks.ini"
      (.file "Neural-Prompts.toml"
      (.file "Qiss-Cloud.yaml"
      (.file "Link-Protocol.ini"
      (.file "License-Auth.ini"
      .nil)))))))
    (.dir "stack-overrides"
      (.file "Illuminati-RayTracing.ini"
      (.file "Disassembly-Fluids.yaml"
      (.file "Harmonia-Spatial.yaml"
      (.file "Diffuser-Net.ini"
      (.file "Charisma-Anim.ini"
      (.file "Ekpyrosa-PCG.yaml"
      (.file "Alrena-Behavior.yaml"
      (.file "LaunchPad-Build.ini"
      .nil))))))))
    (.dir "cross-stack"
      (.file "ECS-Archetypes.yaml"
      .nil)
    (.file "DefaultEngine.ini"
    .nil))))
  (.dir "Builds"
    (.dir "target"
      (.dir "debug"
        .nil
      .nil)
    (.dir "cloud"
      .nil
    (.dir "Windows"
      (.file "MyLucidGame.exe"
      .nil)
    (.dir "Android"
      .nil
    (.dir "Web"
      .nil
    .nil)))))
  (.dir "Docs"
    (.file "Meta-Overview.md"
    (.file "Rust-Interop.md"
    (.file "SDK-Examples.md"
    (.file "Licensing-Model.md"
    (.file "Lucid-Illuminati-Features.md"
    (.file "Cross-Stack-Synergies.md"
    .nil))))))
  (.dir "Telemetry"
    (.file "session-2025-10-07.json"
    .nil)
  (.dir "examples"
    (.dir "lucid-mp-demo"
      (.file "Cargo.toml"
      (.dir "src"
        (.file "main.rs"
        .nil)
      .nil))
    .nil)
  (.file ".gitignore"
  .nil)))))))))

/-- Trace of `main(project_name)` (`a.py` lines 29-500): create the base directory,
walk the tree (ignore set defaulted), then perform the four fixed overwrites. -/
def mainOps (project_name : String := "MyLucidGame") : List Op :=
  .mkdir [project_name] ::
    (create_directory_tree [project_name] tree none ++ finalWrites [project_name])

/-- Trace of the `__main__` block (`a.py` lines 502-506): `args` is `sys.argv[1:]`;
with at least one argument, `main(sys.argv[1])`, otherwise `main()` (so the default
project name `"MyLucidGame"`). -/
def scaffold (args : List String) : List Op :=
  match args with
  | arg :: _ => mainOps arg
  | [] => mainOps

/-! ### Spec-side view: flattening the Tree Description -/

/-- Flatten a Tree Description into its entries: each element is
`(dirs, name, isDir)` where `dirs` is the list of directory names from the root of
the description down to the entry, `name` the entry's own name, and `isDir` whether
it denotes a directory.  Preorder, source order. -/
def flatten : Tree → List (Path × String × Bool)
  | .nil => []
  | .file name rest => ([], name, false) :: flatten rest
  | .dir name children rest =>
      ([], name, true) ::
        ((flatten children).map (fun e => (name :: e.1, e.2)) ++ flatten rest)

/-- Absolute path of a flattened entry under a base path. -/
def entryPath (base : Path) (e : Path × String × Bool) : Path := base ++ e.1 ++ [e.2.1]

/-- The entry a clean walk leaves on disk for a flattened entry, given the ignore
set in force at the entry's level. -/
def entryVal (ig : List String) (e : Path × String × Bool) : FSEntry :=
  if e.2.2 then .dir
  else .file (if ig.contains e.2.1 then ""
    else if isCodeFile e.2.1 then todoLine e.2.1 else "")

/-- The ignore set in force for an entry whose directory path (relative to the walk's
root) is `p`: the caller-supplied set applies only at the top level, every deeper
level uses the default (the recursive call omits the argument). -/
def ignoreAt (ignore_files : Option (List String)) (p : Path) : List String :=
  match p with
  | [] => ignore_files.getD default_ignore
  | _ :: _ => default_ignore

/-- First name component of a flattened entry's relative path. -/
def entryHead (e : Path × String × Bool) : String :=
  match e.1 with
  | [] => e.2.1
  | h :: _ => h

/-- The names of a dict's own (top-level) entries. -/
def keys : Tree → List String
  | .nil => []
  | .file name rest => name :: keys rest
  | .dir name _ rest => name :: keys rest

/-- Well-formedness of a Tree Description as a Python dict guarantees it: no two
entries of the same dict share a name. -/
def WFb : Tree → Bool
  | .nil => true
  | .file name rest => !decide (name ∈ keys rest) && WFb rest
  | .dir name children rest => !decide (name ∈ keys rest) && WFb children && WFb rest

/-! ### Generic facts about the filesystem semantics -/

theorem lookupFS_setEntry_self (fs : FS) (p : Path) (e : FSEntry) :
    lookupFS (setEntry fs p e) p = some e := by
  induction fs with
  | nil => simp [setEntry, lookupFS]
  | cons hd tl ih =>
    obtain ⟨q, e'⟩ := hd
    by_cases h : q = p <;> simp [setEntry, lookupFS, h, ih]

theorem lookupFS_setEntry_ne (fs : FS) (p q : Path) (e : FSEntry) (h : q ≠ p) :
    lookupFS (setEntry fs p e) q = lookupFS fs q := by
  have h' : p ≠ q := Ne.symm h
  induction fs with
  | nil => simp [setEntry, lookupFS, h']
  | cons hd tl ih =>
    obtain ⟨r, e'⟩ := hd
    by_cases hr : r = p <;> simp [setEntry, lookupFS, hr, h', ih]

theorem lookupFS_applyOp_ne (fs : FS) (op : Op) (q : Path) (h : q ≠ op.target) :
    lookupFS (applyOp fs op) q = lookupFS fs q := by
  cases op with
  | touch p =>
    simp only [Op.target] at h
    cases hl : lookupFS fs p <;> simp [applyOp, hl, lookupFS_setEntry_ne _ _ _ _ h]
  | write p c =>
    simp only [Op.target] at h
    simp [applyOp, lookupFS_setEntry_ne _ _ _ _ h]
  | mkdir p =>
    simp only [Op.target] at h
    cases hl : lookupFS fs p <;> simp [applyOp, hl, lookupFS_setEntry_ne _ _ _ _ h]

theorem isSome_lookupFS_applyOp_target (fs : FS) (op : Op) :
    (lookupFS (applyOp fs op) op.target).isSome = true := by
  cases op with
  | touch p =>
    cases hl : lookupFS fs p <;>
      simp [applyOp, Op.target, hl, lookupFS_setEntry_self]
  | write p c => simp [applyOp, Op.target, lookupFS_setEntry_self]
  | mkdir p =>
    cases hl : lookupFS fs p <;>
      simp [applyOp, Op.target, hl, lookupFS_setEntry_self]

theorem run_nil (fs : FS) : run fs [] = fs := rfl

theorem run_cons (fs : FS) (op : Op) (ops : List Op) :
    run fs (op :: ops) = run (applyOp fs op) ops := rfl

theorem run_append (fs : FS) (xs ys : List Op) :
    run fs (xs ++ ys) = run (run fs xs) ys := List.foldl_append _ _ _ _

theorem lookupFS_run_no_target (fs : FS) (ops : List Op) (q : Path)
    (h : ∀ op ∈ ops, op.target ≠ q) :
    lookupFS (run fs ops) q = lookupFS fs q := by
  induction ops generalizing fs with
  | nil => rfl
  | cons op rest ih =>
    rw [run_cons, ih _ (fun o ho => h o (List.mem_cons_of_mem _ ho)),
      lookupFS_applyOp_ne _ _ _ (Ne.symm (h op (List.mem_cons_self _ _)))]

theorem isSome_lookupFS_run (fs : FS) (ops : List Op) (q : Path) :
    (lookupFS (run fs ops) q).isSome = true ↔
      (lookupFS fs q).isSome = true ∨ q ∈ ops.map Op.target := by
  induction ops generalizing fs with
  | nil => simp [run_nil]
  | cons op rest ih =>
    rw [run_cons]
    by_cases hq : q = op.target
    · subst hq
      simp [ih, isSome_lookupFS_applyOp_target, List.mem_cons]
    · rw [ih, lookupFS_applyOp_ne _ _ _ hq]
      simp [List.mem_cons, hq]

theorem isSome_lookupFS_run_mono (fs : FS) (ops : List Op) (q : Path)
    (h : (lookupFS fs q).isSome = true) :
    (lookupFS (run fs ops) q).isSome = true :=
  (isSome_lookupFS_run fs ops q).mpr (Or.inl h)

theorem lookupFS_run_touch_only (fs : FS) (ops : List Op) (q : Path)
    (h : ∀ op ∈ ops, op.target = q → op = .touch q)
    (hs : (lookupFS fs q).isSome = true) :
    lookupFS (run fs ops) q = lookupFS fs q := by
  induction ops generalizing fs with
  | nil => rfl
  | cons op rest ih =>
    rw [run_cons]
    by_cases hq : op.target = q
    · have hop := h op (List.mem_cons_self _ _) hq
      subst hop
      obtain ⟨e, he⟩ := Option.isSome_iff_exists.mp hs
      rw [show applyOp fs (.touch q) = fs by simp [applyOp, he]]
      exact ih _ (fun o ho hqq => h o (List.mem_cons_of_mem _ ho) hqq) hs
    · rw [ih _ (fun o ho hqq => h o (List.mem_cons_of_mem _ ho) hqq),
        lookupFS_applyOp_ne _ _ _ (Ne.symm hq)]
      rw [lookupFS_applyOp_ne _ _ _ (Ne.symm hq)]
      exact hs

theorem runE_eq (fail : Op → Bool) (fs : FS) (ops : List Op) :
    runE fail fs ops =
      (run fs (ops.takeWhile fun op => !fail op), ops.all fun op => !fail op) := by
  induction ops generalizing fs with
  | nil => simp [runE, run_nil]
  | cons op rest ih =>
    cases hf : fail op with
    | true => simp [runE, hf, List.takeWhile_cons, List.all_cons, run_nil]
    | false => simp [runE, hf, List.takeWhile_cons, List.all_cons, ih, run_cons]

theorem runO_append (fs : FS) (xs ys : List Op) :
    runO fs (xs ++ ys) = (runO fs xs).bind fun g => runO g ys := by
  induction xs generalizing fs with
  | nil => simp [runO]
  | cons op rest ih =>
    cases hap : applyOpE fs op <;> simp [runO, hap, ih]

theorem applyOpE_some_eq (fs fs' : FS) (op : Op) (h : applyOpE fs op = some fs') :
    fs' = applyOp fs op := by
  cases op with
  | touch p =>
    simp [applyOpE] at h
    exact h.symm
  | write p c =>
    cases hl : lookupFS fs p with
    | none =>
      simp [applyOpE, hl] at h
      simp [applyOp, ← h]
    | some e =>
      cases e with
      | dir => simp [applyOpE, hl] at h
      | file s =>
        simp [applyOpE, hl] at h
        simp [applyOp, ← h]
  | mkdir p =>
    cases hl : lookupFS fs p with
    | none =>
      simp [applyOpE, hl] at h
      simp [applyOp, hl, ← h]
    | some e =>
      cases e with
      | dir =>
        simp [applyOpE, hl] at h
        simp [applyOp, hl, ← h]
      | file s => simp [applyOpE, hl] at h

theorem runO_some_eq (fs fs' : FS) (ops : List Op) (h : runO fs ops = some fs') :
    fs' = run fs ops := by
  induction ops generalizing fs with
  | nil =>
    simp [runO] at h
    rw [run_nil, h]
  | cons op rest ih =>
    cases hap : applyOpE fs op with
    | none => simp [runO, hap] at h
    | some fs1 =>
      simp only [runO, hap, Option.some_bind] at h
      rw [run_cons, ← applyOpE_some_eq _ _ _ hap]
      exact ih _ h

theorem kindAt_setEntry_ne (fs : FS) (p q : Path) (e : FSEntry) (h : q ≠ p) :
    kindAt (setEntry fs p e) q = kindAt fs q := by
  simp [kindAt, lookupFS_setEntry_ne _ _ _ _ h]

theorem lookup_of_kind_true (fs : FS) (p : Path) (h : kindAt fs p = some true) :
    lookupFS fs p = some .dir := by
  cases hl : lookupFS fs p with
  | none => simp [kindAt, hl] at h
  | some e =>
    cases e with
    | dir => rfl
    | file s => simp [kindAt, hl, FSEntry.isDir] at h

theorem lookup_of_kind_false (fs : FS) (p : Path) (h : kindAt fs p = some false) :
    ∃ s, lookupFS fs p = some (.file s) := by
  cases hl : lookupFS fs p with
  | none => simp [kindAt, hl] at h
  | some e =>
    cases e with
    | dir => simp [kindAt, hl, FSEntry.isDir] at h
    | file s => exact ⟨s, rfl⟩

theorem kindAt_applyOpE_some (fs fs' : FS) (op : Op) (k : Bool) (q : Path)
    (h : applyOpE fs op = some fs') (hk : kindAt fs q = some k) :
    kindAt fs' q = some k := by
  have he := applyOpE_some_eq _ _ _ h
  subst he
  by_cases hq : q = op.target
  · subst hq
    cases op with
    | touch p =>
      cases hl : lookupFS fs p with
      | none => simp [kindAt, Op.target, hl] at hk
      | some e => simpa [applyOp, Op.target, hl] using hk
    | write p c =>
      cases hl : lookupFS fs p with
      | none => simp [kindAt, Op.target, hl] at hk
      | some e =>
        cases e with
        | dir => simp [applyOpE, hl] at h
        | file s =>
          simp [kindAt, Op.target, hl, FSEntry.isDir] at hk
          simp [applyOp, kindAt, Op.target, lookupFS_setEntry_self, FSEntry.isDir, ← hk]
    | mkdir p =>
      cases hl : lookupFS fs p with
      | none => simp [kindAt, Op.target, hl] at hk
      | some e =>
        cases e with
        | file s => simp [applyOpE, hl] at h
        | dir => simpa [applyOp, Op.target, hl] using hk
  · rw [kindAt, lookupFS_applyOp_ne _ _ _ hq]
    exact hk

theorem kindAt_runO_some (fs fs' : FS) (ops : List Op) (k : Bool) (q : Path)
    (h : runO fs ops = some fs') (hk : kindAt fs q = some k) :
    kindAt fs' q = some k := by
  induction ops generalizing fs with
  | nil =>
    simp [runO] at h
    rw [← h]
    exact hk
  | cons op rest ih =>
    cases hap : applyOpE fs op with
    | none => simp [runO, hap] at h
    | some fs1 =>
      simp only [runO, hap, Option.some_bind] at h
      exact ih _ h (kindAt_applyOpE_some _ _ _ _ _ hap hk)

theorem runO_again (fs fs' g : FS) (ops : List Op)
    (h : runO fs ops = some fs')
    (hg : ∀ q, kindAt g q = kindAt fs' q) :
    ∃ g', runO g ops = some g' ∧ ∀ q, kindAt g' q = kindAt fs' q := by
  induction ops generalizing fs g with
  | nil =>
    simp [runO] at h
    subst h
    exact ⟨g, rfl, hg⟩
  | cons op rest ih =>
    cases hap : applyOpE fs op with
    | none => simp [runO, hap] at h
    | some fs1 =>
      simp only [runO, hap, Option.some_bind] at h
      have htgt : ∃ k, kindAt fs1 op.target = some k := by
        rw [applyOpE_some_eq _ _ _ hap]
        have := isSome_lookupFS_applyOp_target fs op
        obtain ⟨e, he⟩ := Option.isSome_iff_exists.mp this
        exact ⟨e.isDir, by simp [kindAt, he]⟩
      obtain ⟨k, hk1⟩ := htgt
      have hkfs' : kindAt fs' op.target = some k := kindAt_runO_some _ _ _ _ _ h hk1
      have hkg : kindAt g op.target = some k := by rw [hg]; exact hkfs'
      cases op with
      | touch p =>
        simp only [Op.target] at hk1 hkfs' hkg
        have hsome : (lookupFS g p).isSome = true := by
          simp only [kindAt, Option.map_eq_some'] at hkg
          obtain ⟨e, he, _⟩ := hkg
          simp [he]
        obtain ⟨e, he⟩ := Option.isSome_iff_exists.mp hsome
        obtain ⟨g', h1, h2⟩ := ih fs1 g h hg
        exact ⟨g', by simp [runO, applyOpE, applyOp, he, h1], h2⟩
      | mkdir p =>
        simp only [Op.target] at hk1 hkfs' hkg
        have hktrue : kindAt fs1 p = some true := by
          rw [applyOpE_some_eq _ _ _ hap]
          cases hl : lookupFS fs p with
          | none => simp [applyOp, hl, kindAt, lookupFS_setEntry_self, FSEntry.isDir]
          | some e =>
            cases e with
            | dir => simp [applyOp, hl, kindAt, FSEntry.isDir]
            | file s => simp [applyOpE, hl] at hap
        have hkt : k = true := Option.some_inj.mp (hk1.symm.trans hktrue)
        subst hkt
        have hgdir : lookupFS g p = some .dir := lookup_of_kind_true _ _ hkg
        obtain ⟨g', h1, h2⟩ := ih fs1 g h hg
        exact ⟨g', by simp [runO, applyOpE, hgdir, h1], h2⟩
      | write p c =>
        simp only [Op.target] at hk1 hkfs' hkg
        have hkfalse : kindAt fs1 p = some false := by
          rw [applyOpE_some_eq _ _ _ hap]
          simp [applyOp, kindAt, lookupFS_setEntry_self, FSEntry.isDir]
        have hkf : k = false := Option.some_inj.mp (hk1.symm.trans hkfalse)
        subst hkf
        obtain ⟨s, hgs⟩ := lookup_of_kind_false _ _ hkg
        have hg1 : ∀ q, kindAt (setEntry g p (.file c)) q = kindAt fs' q := by
          intro q
          by_cases hq : q = p
          · subst hq
            have hup : kindAt (setEntry g q (.file c)) q = some false := by
              simp [kindAt, lookupFS_setEntry_self, FSEntry.isDir]
            rw [hup, hkfs']
          · rw [kindAt_setEntry_ne _ _ _ _ hq]
            exact hg q
        obtain ⟨g', h1, h2⟩ := ih fs1 (setEntry g p (.file c)) h hg1
        exact ⟨g', by simp [runO, applyOpE, hgs, h1], h2⟩

/-! ### Paths of flattened entries -/

theorem concat_inj {xs ys : Path} {x y : String} (h : xs ++ [x] = ys ++ [y]) :
    xs = ys ∧ x = y := by
  have := List.append_inj' h (by simp)
  simpa using this

theorem entryPath_inj {base : Path} {e e' : Path × String × Bool}
    (h : entryPath base e = entryPath base e') : e.1 = e'.1 ∧ e.2.1 = e'.2.1 := by
  unfold entryPath at h
  rw [List.append_assoc, List.append_assoc] at h
  exact concat_inj (List.append_cancel_left h)

theorem entryPath_length (base : Path) (e : Path × String × Bool) :
    (entryPath base e).length = base.length + e.1.length + 1 := by
  simp only [entryPath, List.length_append, List.length_singleton]

theorem entryHead_head (e : Path × String × Bool) :
    (e.1 ++ [e.2.1]).head? = some (entryHead e) := by
  obtain ⟨p, m, b⟩ := e
  cases p <;> simp [entryHead]

theorem entryHead_congr {e e' : Path × String × Bool}
    (h1 : e.1 = e'.1) (h2 : e.2.1 = e'.2.1) : entryHead e = entryHead e' := by
  simp only [entryHead, h1, h2]

theorem entryPath_ne_of_head_ne {base : Path} {e e' : Path × String × Bool}
    (h : entryHead e ≠ entryHead e') : entryPath base e ≠ entryPath base e' := by
  intro hc
  obtain ⟨h1, h2⟩ := entryPath_inj hc
  exact h (entryHead_congr h1 h2)

theorem entryPath_cons (base : Path) (name : String) (e : Path × String × Bool) :
    entryPath (base ++ [name]) e = entryPath base (name :: e.1, e.2) := by
  simp [entryPath]

/-! ### Facts about `flatten`, `keys` and `WFb` -/

theorem flatten_head_mem (t : Tree) : ∀ e ∈ flatten t, entryHead e ∈ keys t := by
  induction t with
  | nil => simp [flatten]
  | file name rest ih =>
    intro e he
    simp only [flatten, List.mem_cons] at he
    rcases he with rfl | he
    · simp [entryHead, keys]
    · simp only [keys, List.mem_cons]
      exact Or.inr (ih e he)
  | dir name children rest ihc ihr =>
    intro e he
    simp only [flatten, List.mem_cons, List.mem_append, List.mem_map] at he
    rcases he with rfl | ⟨e', he', rfl⟩ | he
    · simp [entryHead, keys]
    · simp [entryHead, keys]
    · simp only [keys, List.mem_cons]
      exact Or.inr (ihr e he)

theorem WFb_file {name : String} {rest : Tree} (h : WFb (.file name rest) = true) :
    name ∉ keys rest ∧ WFb rest = true := by
  simp only [WFb, Bool.and_eq_true, Bool.not_eq_true', decide_eq_false_iff_not] at h
  exact h

theorem WFb_dir {name : String} {children rest : Tree}
    (h : WFb (.dir name children rest) = true) :
    name ∉ keys rest ∧ WFb children = true ∧ WFb rest = true := by
  simp only [WFb, Bool.and_eq_true, Bool.not_eq_true', decide_eq_false_iff_not] at h
  exact ⟨h.1.1, h.1.2, h.2⟩

/-! ### Structure of the walk's trace -/

theorem cdt_nil (base : Path) (ig : Option (List String)) :
    create_directory_tree base .nil ig = [] := rfl

theorem cdt_file (base : Path) (name : String) (rest : Tree) (ig : Option (List String)) :
    create_directory_tree base (.file name rest) ig =
      fileOps (base ++ [name]) name (ig.getD default_ignore) ++
        create_directory_tree base rest ig := rfl

theorem cdt_dir (base : Path) (name : String) (children rest : Tree)
    (ig : Option (List String)) :
    create_directory_tree base (.dir name children rest) ig =
      (.mkdir (base ++ [name]) ::
        create_directory_tree (base ++ [name]) children none) ++
        create_directory_tree base rest ig := rfl

theorem fileOps_target (path : Path) (name : String) (igl : List String) :
    ∀ op ∈ fileOps path name igl, op.target = path := by
  intro op hop
  simp only [fileOps] at hop
  split_ifs at hop <;>
    simp only [List.mem_cons, List.mem_singleton, List.not_mem_nil, or_false] at hop
  · subst hop; rfl
  · rcases hop with rfl | rfl <;> rfl
  · subst hop; rfl

theorem walk_target_mem (t : Tree) :
    ∀ (base : Path) (ig : Option (List String)), ∀ op ∈ create_directory_tree base t ig,
      ∃ e ∈ flatten t, op.target = entryPath base e := by
  induction t with
  | nil =>
    intro base ig op hop
    simp [create_directory_tree] at hop
  | file name rest ih =>
    intro base ig op hop
    rw [cdt_file] at hop
    rcases List.mem_append.mp hop with h | h
    · exact ⟨([], name, false), by simp [flatten],
        by rw [fileOps_target _ _ _ _ h]; simp [entryPath]⟩
    · obtain ⟨e, he, ht⟩ := ih base ig op h
      exact ⟨e, by simp [flatten, he], ht⟩
  | dir name children rest ihc ihr =>
    intro base ig op hop
    rw [cdt_dir] at hop
    rcases List.mem_append.mp hop with h | h
    · rcases List.mem_cons.mp h with rfl | h
      · exact ⟨([], name, true), by simp [flatten], by simp [Op.target, entryPath]⟩
      · obtain ⟨e, he, ht⟩ := ihc (base ++ [name]) none op h
        refine ⟨(name :: e.1, e.2), ?_, ?_⟩
        · simp only [flatten, List.mem_cons, List.mem_append, List.mem_map]
          exact Or.inr (Or.inl ⟨e, he, rfl⟩)
        · rw [ht, entryPath_cons]
    · obtain ⟨e, he, ht⟩ := ihr base ig op h
      refine ⟨e, ?_, ht⟩
      simp only [flatten, List.mem_cons, List.mem_append]
      exact Or.inr (Or.inr he)

/-- Paths of creation operations (`touch`, `mkdir`), which correspond one-to-one
with visited entries; `write` reuses the path of the `touch` just before it. -/
def createTarget : Op → Option Path
  | .touch p => some p
  | .mkdir p => some p
  | .write _ _ => none

theorem walk_filterMap_create (t : Tree) : ∀ (base : Path) (ig : Option (List String)),
    (create_directory_tree base t ig).filterMap createTarget =
      (flatten t).map (entryPath base) := by
  induction t with
  | nil => intro base ig; simp [create_directory_tree, flatten]
  | file name rest ih =>
    intro base ig
    have hf : (fileOps (base ++ [name]) name (ig.getD default_ignore)).filterMap
        createTarget = [base ++ [name]] := by
      simp only [fileOps]
      split_ifs <;> simp [createTarget]
    rw [cdt_file, List.filterMap_append, hf, ih]
    simp [flatten, entryPath]
  | dir name children rest ihc ihr =>
    intro base ig
    rw [cdt_dir, List.filterMap_append, List.filterMap_cons]
    simp only [createTarget, ihc, ihr, flatten, List.map_cons, List.map_append,
      List.map_map]
    have h1 : entryPath base ([], name, true) = base ++ [name] := by simp [entryPath]
    have h2 : List.map (entryPath base ∘ fun e => (name :: e.1, e.2)) (flatten children)
        = List.map (entryPath (base ++ [name])) (flatten children) := by
      apply List.map_congr_left
      intro e he
      simp [Function.comp, entryPath_cons]
    rw [h1, h2, List.cons_append]

theorem walk_target_iff (t : Tree) (base : Path) (ig : Option (List String)) (q : Path) :
    q ∈ (create_directory_tree base t ig).map Op.target ↔
      ∃ e ∈ flatten t, q = entryPath base e := by
  constructor
  · intro h
    obtain ⟨op, hop, rfl⟩ := List.mem_map.mp h
    obtain ⟨e, he, ht⟩ := walk_target_mem t base ig op hop
    exact ⟨e, he, ht⟩
  · rintro ⟨e, he, rfl⟩
    have h1 : entryPath base e ∈
        (create_directory_tree base t ig).filterMap createTarget := by
      rw [walk_filterMap_create]
      exact List.mem_map_of_mem _ he
    obtain ⟨op, hop, hco⟩ := List.mem_filterMap.mp h1
    refine List.mem_map.mpr ⟨op, hop, ?_⟩
    cases op <;> simp [createTarget] at hco <;> simp [Op.target, hco]

theorem walk_target_long (t : Tree) (base : Path) (ig : Option (List String)) :
    ∀ op ∈ create_directory_tree base t ig, base.length < op.target.length := by
  intro op hop
  obtain ⟨e, he, ht⟩ := walk_target_mem t base ig op hop
  rw [ht, entryPath_length]
  omega

/-! ### Disequalities between entry paths -/

theorem entryPath_top_ne {base : Path} {name : String} {b : Bool}
    {e : Path × String × Bool} {t : Tree} (he : e ∈ flatten t)
    (hname : name ∉ keys t) :
    entryPath base ([], name, b) ≠ entryPath base e := by
  apply entryPath_ne_of_head_ne
  have hmem := flatten_head_mem t e he
  intro hc
  have hn : name = entryHead e := hc
  rw [← hn] at hmem
  exact hname hmem

theorem entryPath_deep_ne {base : Path} {name : String}
    {e e' : Path × String × Bool} {t : Tree} (he' : e' ∈ flatten t)
    (hname : name ∉ keys t) :
    entryPath base (name :: e.1, e.2) ≠ entryPath base e' := by
  apply entryPath_ne_of_head_ne
  have hmem := flatten_head_mem t e' he'
  intro hc
  have hn : name = entryHead e' := hc
  rw [← hn] at hmem
  exact hname hmem

theorem entryPath_ne_self (base : Path) (e : Path × String × Bool) :
    entryPath base e ≠ base := by
  intro h
  have hl := entryPath_length base e
  rw [h] at hl
  omega

theorem kindAt_run_no_target (fs : FS) (ops : List Op) (q : Path)
    (h : ∀ op ∈ ops, op.target ≠ q) :
    kindAt (run fs ops) q = kindAt fs q := by
  simp only [kindAt, lookupFS_run_no_target fs ops q h]

theorem kindAt_applyOp_ne (fs : FS) (op : Op) (q : Path) (h : q ≠ op.target) :
    kindAt (applyOp fs op) q = kindAt fs q := by
  simp only [kindAt, lookupFS_applyOp_ne fs op q h]

theorem applyOpE_touch (fs : FS) (p : Path) :
    applyOpE fs (.touch p) = some (applyOp fs (.touch p)) := rfl

theorem applyOpE_write_of_file (fs : FS) (p : Path) (c s : String)
    (h : lookupFS fs p = some (.file s)) :
    applyOpE fs (.write p c) = some (applyOp fs (.write p c)) := by
  simp [applyOpE, applyOp, h]

/-- Content a clean walk leaves at the path of a file entry. -/
theorem run_fileOps_lookup (fs : FS) (path : Path) (name : String) (igl : List String)
    (hcl : lookupFS fs path = none) :
    lookupFS (run fs (fileOps path name igl)) path =
      some (.file (if igl.contains name then ""
        else if isCodeFile name then todoLine name else "")) := by
  by_cases hig : name ∈ igl
  · have hfo : fileOps path name igl = [.touch path] := by simp [fileOps, hig]
    rw [hfo]
    simp [run_cons, run_nil, applyOp, hcl, lookupFS_setEntry_self, hig]
  · by_cases hcode : isCodeFile name
    · have hfo : fileOps path name igl = [.touch path, .write path (todoLine name)] := by
        simp [fileOps, hig, hcode]
      rw [hfo]
      simp [run_cons, run_nil, applyOp, hcl, lookupFS_setEntry_self, hig, hcode]
    · have hfo : fileOps path name igl = [.touch path] := by simp [fileOps, hig, hcode]
      rw [hfo]
      simp [run_cons, run_nil, applyOp, hcl, lookupFS_setEntry_self, hig, hcode]

/-! ### State left by a clean walk -/

theorem walk_lookup (t : Tree) :
    ∀ (base : Path) (ig : Option (List String)) (fs : FS),
      WFb t = true →
      (∀ e ∈ flatten t, lookupFS fs (entryPath base e) = none) →
      ∀ e ∈ flatten t,
        lookupFS (run fs (create_directory_tree base t ig)) (entryPath base e) =
          some (entryVal (ignoreAt ig e.1) e) := by
  induction t with
  | nil =>
    intro base ig fs _ _ e he
    simp [flatten] at he
  | file name rest ih =>
    intro base ig fs hWF hclean e he
    obtain ⟨hname, hWFr⟩ := WFb_file hWF
    rw [cdt_file, run_append]
    simp only [flatten, List.mem_cons] at he
    rcases he with rfl | he
    · have hbn : entryPath base ([], name, false) = base ++ [name] := by simp [entryPath]
      rw [lookupFS_run_no_target]
      · rw [hbn, run_fileOps_lookup]
        · simp [entryVal, ignoreAt]
        · rw [← hbn]
          exact hclean _ (by simp [flatten])
      · intro op hop
        obtain ⟨e', he', ht⟩ := walk_target_mem rest base ig op hop
        rw [ht]
        exact (entryPath_top_ne he' hname).symm
    · have hclean1 : ∀ e' ∈ flatten rest,
          lookupFS (run fs (fileOps (base ++ [name]) name (ig.getD default_ignore)))
            (entryPath base e') = none := by
        intro e' he'
        rw [lookupFS_run_no_target]
        · exact hclean e' (by simp [flatten, he'])
        · intro op hop
          rw [fileOps_target _ _ _ op hop]
          intro hc
          have hbn : entryPath base ([], name, false) = base ++ [name] := by
            simp [entryPath]
          exact (entryPath_top_ne he' hname) (hbn.trans hc)
      exact ih base ig _ hWFr hclean1 e he
  | dir name children rest ihc ihr =>
    intro base ig fs hWF hclean e he
    obtain ⟨hname, hWFc, hWFr⟩ := WFb_dir hWF
    rw [cdt_dir, run_append, run_cons]
    have hbn : entryPath base ([], name, true) = base ++ [name] := by simp [entryPath]
    have hclB : lookupFS fs (base ++ [name]) = none := by
      rw [← hbn]
      exact hclean _ (by simp [flatten])
    have hfs1eq : applyOp fs (.mkdir (base ++ [name])) =
        setEntry fs (base ++ [name]) .dir := by
      simp [applyOp, hclB]
    simp only [flatten, List.mem_cons, List.mem_append, List.mem_map] at he
    rcases he with rfl | ⟨e', he', rfl⟩ | he
    · rw [lookupFS_run_no_target, lookupFS_run_no_target]
      · rw [hbn, hfs1eq, lookupFS_setEntry_self]
        simp [entryVal]
      · intro op hop
        have hl := walk_target_long children (base ++ [name]) none op hop
        intro hc
        rw [hbn] at hc
        rw [hc] at hl
        omega
      · intro op hop
        obtain ⟨e'', he'', ht⟩ := walk_target_mem rest base ig op hop
        rw [ht]
        exact (entryPath_top_ne he'' hname).symm
    · have hq : entryPath base (name :: e'.1, e'.2) = entryPath (base ++ [name]) e' :=
        (entryPath_cons _ _ _).symm
      rw [lookupFS_run_no_target]
      · rw [hq]
        have hclean1 : ∀ e'' ∈ flatten children,
            lookupFS (applyOp fs (.mkdir (base ++ [name])))
              (entryPath (base ++ [name]) e'') = none := by
          intro e'' he''
          rw [hfs1eq, lookupFS_setEntry_ne]
          · rw [entryPath_cons]
            refine hclean _ ?_
            simp only [flatten, List.mem_cons, List.mem_append, List.mem_map]
            exact Or.inr (Or.inl ⟨e'', he'', rfl⟩)
          · exact entryPath_ne_self (base ++ [name]) e''
        have hres := ihc (base ++ [name]) none _ hWFc hclean1 e' he'
        rw [hres]
        cases h1 : e'.1 <;> simp [entryVal, ignoreAt]
      · intro op hop
        obtain ⟨e'', he'', ht⟩ := walk_target_mem rest base ig op hop
        rw [ht]
        exact (entryPath_deep_ne he'' hname).symm
    · have hclean1 : ∀ e'' ∈ flatten rest,
          lookupFS (run (applyOp fs (.mkdir (base ++ [name])))
            (create_directory_tree (base ++ [name]) children none))
            (entryPath base e'') = none := by
        intro e'' he''
        rw [lookupFS_run_no_target]
        · rw [hfs1eq, lookupFS_setEntry_ne]
          · refine hclean _ ?_
            simp only [flatten, List.mem_cons, List.mem_append, List.mem_map]
            exact Or.inr (Or.inr he'')
          · intro hc
            exact (entryPath_top_ne he'' hname) (hbn.trans hc.symm)
        · intro op hop
          obtain ⟨ec, hec, ht⟩ := walk_target_mem children (base ++ [name]) none op hop
          rw [ht, entryPath_cons]
          exact entryPath_deep_ne he'' hname
      exact ihr base ig _ hWFr hclean1 e he

/-! ### Ignored file entries are only ever touched by a default-ignore walk -/

theorem walk_only_touch (t : Tree) :
    ∀ (base : Path), WFb t = true →
      ∀ e ∈ flatten t, e.2.2 = false → default_ignore.contains e.2.1 = true →
      ∀ op ∈ create_directory_tree base t none, op.target = entryPath base e →
        op = .touch (entryPath base e) := by
  induction t with
  | nil =>
    intro base _ e he
    simp [flatten] at he
  | file name rest ih =>
    intro base hWF e he hb hig op hop htgt
    obtain ⟨hname, hWFr⟩ := WFb_file hWF
    rw [cdt_file] at hop
    simp only [Option.getD_none] at hop
    simp only [flatten, List.mem_cons] at he
    rcases List.mem_append.mp hop with h | h
    · rcases he with rfl | he
      · dsimp only at hig
        simp only [fileOps, hig, if_true] at h
        simp only [List.mem_singleton] at h
        subst h
        simp only [Op.target] at htgt
        rw [htgt]
      · exfalso
        rw [fileOps_target _ _ _ op h] at htgt
        have hbn : entryPath base ([], name, false) = base ++ [name] := by
          simp [entryPath]
        exact (entryPath_top_ne he hname) (hbn.trans htgt)
    · rcases he with rfl | he
      · exfalso
        obtain ⟨e', he', ht⟩ := walk_target_mem rest base none op h
        rw [ht] at htgt
        exact (entryPath_top_ne he' hname) htgt.symm
      · exact ih base hWFr e he hb hig op h htgt
  | dir name children rest ihc ihr =>
    intro base hWF e he hb hig op hop htgt
    obtain ⟨hname, hWFc, hWFr⟩ := WFb_dir hWF
    rw [cdt_dir] at hop
    simp only [flatten, List.mem_cons, List.mem_append, List.mem_map] at he
    rcases he with rfl | ⟨e', he', rfl⟩ | he
    · simp at hb
    · rcases List.mem_append.mp hop with h | h
      · rcases List.mem_cons.mp h with rfl | h
        · exfalso
          have hlen : (entryPath base (name :: e'.1, e'.2)).length =
              base.length + e'.1.length + 2 := by
            dsimp only [entryPath]
            simp only [List.length_append, List.length_cons, List.length_singleton,
              List.length_nil]
            omega
          rw [← htgt] at hlen
          simp only [Op.target, List.length_append, List.length_singleton] at hlen
          omega
        · have hq : entryPath base (name :: e'.1, e'.2) =
              entryPath (base ++ [name]) e' := (entryPath_cons _ _ _).symm
          rw [hq] at htgt ⊢
          exact ihc (base ++ [name]) hWFc e' he' hb hig op h htgt
      · exfalso
        obtain ⟨e'', he'', ht⟩ := walk_target_mem rest base none op h
        rw [ht] at htgt
        exact (entryPath_deep_ne he'' hname) htgt.symm
    · rcases List.mem_append.mp hop with h | h
      · exfalso
        rcases List.mem_cons.mp h with rfl | h
        · have hbn : entryPath base ([], name, true) = base ++ [name] := by
            simp [entryPath]
          simp only [Op.target] at htgt
          exact (entryPath_top_ne he hname) (hbn.trans htgt)
        · obtain ⟨ec, hec, ht⟩ := walk_target_mem children (base ++ [name]) none op h
          rw [ht, entryPath_cons] at htgt
          exact (entryPath_deep_ne he hname) htgt
      · exact ihr base hWFr e he hb hig op h htgt

/-! ### A walk over a kind-compatible state raises no exception -/

theorem walk_success (t : Tree) :
    ∀ (base : Path) (ig : Option (List String)) (fs : FS),
      WFb t = true →
      (∀ e ∈ flatten t, kindAt fs (entryPath base e) ≠ some (!e.2.2)) →
      runO fs (create_directory_tree base t ig) =
        some (run fs (create_directory_tree base t ig)) := by
  induction t with
  | nil =>
    intro base ig fs _ _
    simp [create_directory_tree, runO, run_nil]
  | file name rest ih =>
    intro base ig fs hWF hcompat
    obtain ⟨hname, hWFr⟩ := WFb_file hWF
    rw [cdt_file, runO_append, run_append]
    have hk0 : kindAt fs (base ++ [name]) ≠ some true := by
      have h0 := hcompat ([], name, false) (by simp [flatten])
      simpa [entryPath] using h0
    have h1 : runO fs (fileOps (base ++ [name]) name (ig.getD default_ignore)) =
        some (run fs (fileOps (base ++ [name]) name (ig.getD default_ignore))) := by
      by_cases hig : name ∈ ig.getD default_ignore
      · have hfo : fileOps (base ++ [name]) name (ig.getD default_ignore) =
            [.touch (base ++ [name])] := by simp [fileOps, hig]
        rw [hfo]
        simp only [runO, applyOpE_touch, Option.some_bind, run_cons, run_nil]
      · by_cases hcode : isCodeFile name
        · have hfo : fileOps (base ++ [name]) name (ig.getD default_ignore) =
              [.touch (base ++ [name]), .write (base ++ [name]) (todoLine name)] := by
            simp [fileOps, hig, hcode]
          rw [hfo]
          have hfile : ∃ s, lookupFS (applyOp fs (.touch (base ++ [name])))
              (base ++ [name]) = some (.file s) := by
            cases hl : lookupFS fs (base ++ [name]) with
            | none => exact ⟨"", by simp [applyOp, hl, lookupFS_setEntry_self]⟩
            | some e =>
              cases e with
              | dir => exact absurd (by simp [kindAt, hl, FSEntry.isDir]) hk0
              | file s => exact ⟨s, by simp [applyOp, hl]⟩
          obtain ⟨s, hs⟩ := hfile
          have hw := applyOpE_write_of_file _ _ (todoLine name) _ hs
          have hrO : runO fs [Op.touch (base ++ [name]),
              Op.write (base ++ [name]) (todoLine name)] =
              (applyOpE (applyOp fs (.touch (base ++ [name])))
                (.write (base ++ [name]) (todoLine name))).bind
                  fun fs2 => some fs2 := rfl
          rw [hrO, hw, Option.some_bind]
          rfl
        · have hfo : fileOps (base ++ [name]) name (ig.getD default_ignore) =
              [.touch (base ++ [name])] := by simp [fileOps, hig, hcode]
          rw [hfo]
          simp only [runO, applyOpE_touch, Option.some_bind, run_cons, run_nil]
    rw [h1, Option.some_bind]
    apply ih base ig _ hWFr
    intro e' he'
    rw [kindAt_run_no_target]
    · exact hcompat e' (by simp [flatten, he'])
    · intro op hop
      rw [fileOps_target _ _ _ op hop]
      intro hc
      have hbn : entryPath base ([], name, false) = base ++ [name] := by simp [entryPath]
      exact (entryPath_top_ne he' hname) (hbn.trans hc)
  | dir name children rest ihc ihr =>
    intro base ig fs hWF hcompat
    obtain ⟨hname, hWFc, hWFr⟩ := WFb_dir hWF
    rw [cdt_dir, runO_append, run_append]
    have hk0 : kindAt fs (base ++ [name]) ≠ some false := by
      have h0 := hcompat ([], name, true) (by simp [flatten])
      simpa [entryPath] using h0
    have hmk : applyOpE fs (.mkdir (base ++ [name])) =
        some (applyOp fs (.mkdir (base ++ [name]))) := by
      cases hl : lookupFS fs (base ++ [name]) with
      | none => simp [applyOpE, applyOp, hl]
      | some e =>
        cases e with
        | dir => simp [applyOpE, applyOp, hl]
        | file s => exact absurd (by simp [kindAt, hl, FSEntry.isDir]) hk0
    have hcompatC : ∀ e' ∈ flatten children,
        kindAt (applyOp fs (.mkdir (base ++ [name])))
          (entryPath (base ++ [name]) e') ≠ some (!e'.2.2) := by
      intro e' he'
      have hne : entryPath (base ++ [name]) e' ≠ (Op.mkdir (base ++ [name])).target :=
        entryPath_ne_self _ _
      rw [kindAt_applyOp_ne _ _ _ hne, entryPath_cons]
      refine hcompat (name :: e'.1, e'.2) ?_
      simp only [flatten, List.mem_cons, List.mem_append, List.mem_map]
      exact Or.inr (Or.inl ⟨e', he', rfl⟩)
    have hC := ihc (base ++ [name]) none _ hWFc hcompatC
    have hcompatR : ∀ e'' ∈ flatten rest,
        kindAt (run (applyOp fs (.mkdir (base ++ [name])))
          (create_directory_tree (base ++ [name]) children none))
          (entryPath base e'') ≠ some (!e''.2.2) := by
      intro e'' he''
      rw [kindAt_run_no_target]
      · have hne : entryPath base e'' ≠ (Op.mkdir (base ++ [name])).target := by
          simp only [Op.target]
          intro hc
          have hbn : entryPath base ([], name, true) = base ++ [name] := by
            simp [entryPath]
          exact (entryPath_top_ne he'' hname) (hbn.trans hc.symm)
        rw [kindAt_applyOp_ne _ _ _ hne]
        refine hcompat e'' ?_
        simp only [flatten, List.mem_cons, List.mem_append, List.mem_map]
        exact Or.inr (Or.inr he'')
      · intro op hop
        obtain ⟨ec, hec, ht⟩ := walk_target_mem children (base ++ [name]) none op hop
        rw [ht, entryPath_cons]
        exact entryPath_deep_ne he'' hname
    have hR := ihr base ig _ hWFr hcompatR
    have hleft : runO fs (.mkdir (base ++ [name]) ::
        create_directory_tree (base ++ [name]) children none) =
        some (run fs (.mkdir (base ++ [name]) ::
          create_directory_tree (base ++ [name]) children none)) := by
      simp only [runO, hmk, Option.some_bind, run_cons]
      exact hC
    rw [hleft, Option.some_bind, run_cons]
    exact hR

/-! ### The full program run -/

theorem mainOps_eq (n : String) :
    mainOps n = .mkdir [n] ::
      (create_directory_tree [n] tree none ++ finalWrites [n]) := rfl

theorem runO_cons_of_some (fs fs1 : FS) (op : Op) (ops : List Op)
    (h : applyOpE fs op = some fs1) :
    runO fs (op :: ops) = runO fs1 ops := by
  simp [runO, h]

theorem ignoreAt_none (p : Path) : ignoreAt none p = default_ignore := by
  cases p <;> rfl

theorem entryPath_split (n : String) (e : Path × String × Bool) (X : Path)
    (hc : entryPath [n] e = [n] ++ X) : e.1 ++ [e.2.1] = X := by
  have h2 : ([n] : Path) ++ (e.1 ++ [e.2.1]) = [n] ++ X := by
    rw [← List.append_assoc]
    exact hc
  exact List.append_cancel_left h2

theorem fs0_clean (n : String) :
    ∀ e ∈ flatten tree, lookupFS [([n], FSEntry.dir)] (entryPath [n] e) = none := by
  intro e _
  have hne : ([n] : Path) ≠ entryPath [n] e := by
    intro hc
    have hl := entryPath_length [n] e
    rw [← hc] at hl
    simp only [List.length_singleton] at hl
    omega
  simp [lookupFS, hne]

theorem main_run_eq (n : String) :
    run [] (mainOps n) =
      run (run [([n], FSEntry.dir)] (create_directory_tree [n] tree none))
        (finalWrites [n]) := by
  rw [mainOps_eq, run_cons, run_append]
  rfl

theorem main_walk_lookup (n : String) :
    ∀ e ∈ flatten tree,
      lookupFS (run [([n], FSEntry.dir)] (create_directory_tree [n] tree none))
        (entryPath [n] e) = some (entryVal default_ignore e) := by
  intro e he
  have h := walk_lookup tree [n] none _ (by decide) (fs0_clean n) e he
  rwa [ignoreAt_none] at h

theorem finals_lookup (g : FS) (n : String) :
    lookupFS (run g (finalWrites [n])) ([n] ++ ["lucid-engine", "README.md"]) =
      some (.file readme_text) ∧
    lookupFS (run g (finalWrites [n])) ([n] ++ ["lucid-engine", "LICENSE.md"]) =
      some (.file license_text) ∧
    lookupFS (run g (finalWrites [n]))
      ([n] ++ ["lucid-engine", "build", "lucid-stack-builder.py"]) =
      some (.file builder_text) ∧
    lookupFS (run g (finalWrites [n])) ([n] ++ [".gitignore"]) =
      some (.file gitignore_text) := by
  have hne : ∀ (X Y : Path), X ≠ Y → ([n] ++ X : Path) ≠ [n] ++ Y := fun X Y h hc =>
    h (List.append_cancel_left hc)
  have hrun : run g (finalWrites [n]) =
      setEntry (setEntry (setEntry (setEntry g
        ([n] ++ ["lucid-engine", "README.md"]) (.file readme_text))
        ([n] ++ ["lucid-engine", "LICENSE.md"]) (.file license_text))
        ([n] ++ ["lucid-engine", "build", "lucid-stack-builder.py"]) (.file builder_text))
        ([n] ++ [".gitignore"]) (.file gitignore_text) := rfl
  refine ⟨?_, ?_, ?_, ?_⟩
  · rw [hrun, lookupFS_setEntry_ne _ _ _ _ (hne _ _ (by decide)),
      lookupFS_setEntry_ne _ _ _ _ (hne _ _ (by decide)),
      lookupFS_setEntry_ne _ _ _ _ (hne _ _ (by decide)), lookupFS_setEntry_self]
  · rw [hrun, lookupFS_setEntry_ne _ _ _ _ (hne _ _ (by decide)),
      lookupFS_setEntry_ne _ _ _ _ (hne _ _ (by decide)), lookupFS_setEntry_self]
  · rw [hrun, lookupFS_setEntry_ne _ _ _ _ (hne _ _ (by decide)),
      lookupFS_setEntry_self]
  · rw [hrun, lookupFS_setEntry_self]

theorem finals_other (g : FS) (n : String) (q : Path)
    (h1 : q ≠ [n] ++ ["lucid-engine", "README.md"])
    (h2 : q ≠ [n] ++ ["lucid-engine", "LICENSE.md"])
    (h3 : q ≠ [n] ++ ["lucid-engine", "build", "lucid-stack-builder.py"])
    (h4 : q ≠ [n] ++ [".gitignore"]) :
    lookupFS (run g (finalWrites [n])) q = lookupFS g q := by
  have hrun : run g (finalWrites [n]) =
      setEntry (setEntry (setEntry (setEntry g
        ([n] ++ ["lucid-engine", "README.md"]) (.file readme_text))
        ([n] ++ ["lucid-engine", "LICENSE.md"]) (.file license_text))
        ([n] ++ ["lucid-engine", "build", "lucid-stack-builder.py"]) (.file builder_text))
        ([n] ++ [".gitignore"]) (.file gitignore_text) := rfl
  rw [hrun, lookupFS_setEntry_ne _ _ _ _ h4, lookupFS_setEntry_ne _ _ _ _ h3,
    lookupFS_setEntry_ne _ _ _ _ h2, lookupFS_setEntry_ne _ _ _ _ h1]

theorem finals_success (g : FS) (n : String)
    (h1 : ∃ s, lookupFS g ([n] ++ ["lucid-engine", "README.md"]) = some (.file s))
    (h2 : ∃ s, lookupFS g ([n] ++ ["lucid-engine", "LICENSE.md"]) = some (.file s))
    (h3 : ∃ s, lookupFS g ([n] ++ ["lucid-engine", "build", "lucid-stack-builder.py"]) =
      some (.file s))
    (h4 : ∃ s, lookupFS g ([n] ++ [".gitignore"]) = some (.file s)) :
    runO g (finalWrites [n]) = some (run g (finalWrites [n])) := by
  obtain ⟨s1, h1⟩ := h1
  obtain ⟨s2, h2⟩ := h2
  obtain ⟨s3, h3⟩ := h3
  obtain ⟨s4, h4⟩ := h4
  have hne : ∀ (X Y : Path), X ≠ Y → ([n] ++ X : Path) ≠ [n] ++ Y := fun X Y h hc =>
    h (List.append_cancel_left hc)
  have e1 := applyOpE_write_of_file g ([n] ++ ["lucid-engine", "README.md"])
    readme_text s1 h1
  have l2 : lookupFS (applyOp g (.write ([n] ++ ["lucid-engine", "README.md"])
      readme_text)) ([n] ++ ["lucid-engine", "LICENSE.md"]) = some (.file s2) := by
    rw [show applyOp g (.write ([n] ++ ["lucid-engine", "README.md"]) readme_text) =
        setEntry g ([n] ++ ["lucid-engine", "README.md"]) (.file readme_text) from rfl,
      lookupFS_setEntry_ne _ _ _ _ (hne _ _ (by decide))]
    exact h2
  have e2 := applyOpE_write_of_file _ ([n] ++ ["lucid-engine", "LICENSE.md"])
    license_text s2 l2
  have l3 : lookupFS (applyOp (applyOp g (.write ([n] ++ ["lucid-engine", "README.md"])
      readme_text)) (.write ([n] ++ ["lucid-engine", "LICENSE.md"]) license_text))
      ([n] ++ ["lucid-engine", "build", "lucid-stack-builder.py"]) =
      some (.file s3) := by
    rw [show applyOp (applyOp g (.write ([n] ++ ["lucid-engine", "README.md"])
        readme_text)) (.write ([n] ++ ["lucid-engine", "LICENSE.md"]) license_text) =
        setEntry (setEntry g ([n] ++ ["lucid-engine", "README.md"]) (.file readme_text))
          ([n] ++ ["lucid-engine", "LICENSE.md"]) (.file license_text) from rfl,
      lookupFS_setEntry_ne _ _ _ _ (hne _ _ (by decide)),
      lookupFS_setEntry_ne _ _ _ _ (hne _ _ (by decide))]
    exact h3
  have e3 := applyOpE_write_of_file _
    ([n] ++ ["lucid-engine", "build", "lucid-stack-builder.py"]) builder_text s3 l3
  have l4 : lookupFS (applyOp (applyOp (applyOp g
      (.write ([n] ++ ["lucid-engine", "README.md"]) readme_text))
      (.write ([n] ++ ["lucid-engine", "LICENSE.md"]) license_text))
      (.write ([n] ++ ["lucid-engine", "build", "lucid-stack-builder.py"]) builder_text))
      ([n] ++ [".gitignore"]) = some (.file s4) := by
    rw [show applyOp (applyOp (applyOp g
        (.write ([n] ++ ["lucid-engine", "README.md"]) readme_text))
        (.write ([n] ++ ["lucid-engine", "LICENSE.md"]) license_text))
        (.write ([n] ++ ["lucid-engine", "build", "lucid-stack-builder.py"])
          builder_text) =
        setEntry (setEntry (setEntry g ([n] ++ ["lucid-engine", "README.md"])
          (.file readme_text)) ([n] ++ ["lucid-engine", "LICENSE.md"])
          (.file license_text))
          ([n] ++ ["lucid-engine", "build", "lucid-stack-builder.py"])
          (.file builder_text) from rfl,
      lookupFS_setEntry_ne _ _ _ _ (hne _ _ (by decide)),
      lookupFS_setEntry_ne _ _ _ _ (hne _ _ (by decide)),
      lookupFS_setEntry_ne _ _ _ _ (hne _ _ (by decide))]
    exact h4
  have e4 := applyOpE_write_of_file _ ([n] ++ [".gitignore"]) gitignore_text s4 l4
  show runO g (.write ([n] ++ ["lucid-engine", "README.md"]) readme_text ::
    [.write ([n] ++ ["lucid-engine", "LICENSE.md"]) license_text,
     .write ([n] ++ ["lucid-engine", "build", "lucid-stack-builder.py"]) builder_text,
     .write ([n] ++ [".gitignore"]) gitignore_text]) = some (run g (finalWrites [n]))
  rw [runO_cons_of_some _ _ _ _ e1, runO_cons_of_some _ _ _ _ e2,
    runO_cons_of_some _ _ _ _ e3, runO_cons_of_some _ _ _ _ e4]
  rfl

theorem main_first_success (n : String) :
    runO [] (mainOps n) = some (run [] (mainOps n)) := by
  rw [mainOps_eq]
  have h0 : applyOpE [] (.mkdir [n]) = some (applyOp [] (.mkdir [n])) := rfl
  rw [runO_cons_of_some _ _ _ _ h0, run_cons, runO_append, run_append]
  have hW := walk_success tree [n] none (applyOp [] (.mkdir [n])) (by decide) ?hc
  case hc =>
    intro e he
    have hcl := fs0_clean n e he
    rw [show applyOp [] (.mkdir [n]) = [([n], FSEntry.dir)] from rfl]
    simp [kindAt, hcl]
  rw [hW, Option.some_bind]
  have hg := main_walk_lookup n
  have hfs0 : applyOp [] (.mkdir [n]) = [([n], FSEntry.dir)] := rfl
  rw [hfs0]
  apply finals_success
  · refine ⟨"", ?_⟩
    have h := hg (["lucid-engine"], "README.md", false) (by decide)
    have hv : entryVal default_ignore ((["lucid-engine"], "README.md", false) :
        Path × String × Bool) = .file "" := by decide
    have hp : entryPath [n] ((["lucid-engine"], "README.md", false) :
        Path × String × Bool) = [n] ++ ["lucid-engine", "README.md"] := by
      simp [entryPath]
    rw [hv, hp] at h
    exact h
  · refine ⟨"", ?_⟩
    have h := hg (["lucid-engine"], "LICENSE.md", false) (by decide)
    have hv : entryVal default_ignore ((["lucid-engine"], "LICENSE.md", false) :
        Path × String × Bool) = .file "" := by decide
    have hp : entryPath [n] ((["lucid-engine"], "LICENSE.md", false) :
        Path × String × Bool) = [n] ++ ["lucid-engine", "LICENSE.md"] := by
      simp [entryPath]
    rw [hv, hp] at h
    exact h
  · refine ⟨todoLine "lucid-stack-builder.py", ?_⟩
    have h := hg (["lucid-engine", "build"], "lucid-stack-builder.py", false) (by decide)
    have hv : entryVal default_ignore ((["lucid-engine", "build"],
        "lucid-stack-builder.py", false) : Path × String × Bool) =
        .file (todoLine "lucid-stack-builder.py") := by decide
    have hp : entryPath [n] ((["lucid-engine", "build"],
        "lucid-stack-builder.py", false) : Path × String × Bool) =
        [n] ++ ["lucid-engine", "build", "lucid-stack-builder.py"] := by
      simp [entryPath]
    rw [hv, hp] at h
    exact h
  · refine ⟨"", ?_⟩
    have h := hg (([], ".gitignore", false) : Path × String × Bool) (by decide)
    have hv : entryVal default_ignore (([], ".gitignore", false) :
        Path × String × Bool) = .file "" := by decide
    have hp : entryPath [n] (([], ".gitignore", false) : Path × String × Bool) =
        [n] ++ [".gitignore"] := by simp [entryPath]
    rw [hv, hp] at h
    exact h

theorem main_only_touch (n : String) (e : Path × String × Bool)
    (he : e ∈ flatten tree) (hb : e.2.2 = false)
    (hig : default_ignore.contains e.2.1 = true)
    (hex : e.1 ++ [e.2.1] ∉ [["lucid-engine", "README.md"],
      ["lucid-engine", "LICENSE.md"], [".gitignore"]]) :
    ∀ op ∈ mainOps n, op.target = entryPath [n] e →
      op = .touch (entryPath [n] e) := by
  intro op hop htgt
  rw [mainOps_eq] at hop
  rcases List.mem_cons.mp hop with rfl | hop
  · exfalso
    simp only [Op.target] at htgt
    have hl := entryPath_length [n] e
    rw [← htgt] at hl
    simp only [List.length_singleton] at hl
    omega
  rcases List.mem_append.mp hop with h | h
  · exact walk_only_touch tree [n] (by decide) e he hb hig op h htgt
  · exfalso
    simp only [finalWrites, List.mem_cons, List.not_mem_nil, or_false] at h
    rcases h with rfl | rfl | rfl | rfl
    · simp only [Op.target] at htgt
      have hX := entryPath_split n e _ htgt.symm
      exact hex (by rw [hX]; simp)
    · simp only [Op.target] at htgt
      have hX := entryPath_split n e _ htgt.symm
      exact hex (by rw [hX]; simp)
    · simp only [Op.target] at htgt
      have hX := entryPath_split n e _ htgt.symm
      have hX' : e.1 ++ [e.2.1] =
          ["lucid-engine", "build"] ++ ["lucid-stack-builder.py"] := by
        rw [hX]
        rfl
      have hm := (concat_inj hX').2
      rw [hm] at hig
      exact absurd hig (by decide)
    · simp only [Op.target] at htgt
      have hX := entryPath_split n e _ htgt.symm
      exact hex (by rw [hX]; simp)

/-! ### The claims -/

/-- C1: for every project name, running the scaffold against a clean filesystem
creates exactly the set of paths derivable by flattening the fixed Tree Description
rooted at the project directory: a path exists after the run iff it is the root
directory itself or the path of a flattened entry under it; no other path is
created and none is missing. -/
theorem claim_C1 (n : String) (q : Path) :
    (lookupFS (run [] (mainOps n)) q).isSome = true ↔
      (q = [n] ∨ ∃ e ∈ flatten tree, q = entryPath [n] e) := by
  rw [isSome_lookupFS_run]
  simp only [lookupFS, Option.isSome_none, Bool.false_eq_true, false_or]
  rw [mainOps_eq]
  simp only [List.map_cons, List.map_append, List.mem_cons, List.mem_append, Op.target]
  constructor
  · rintro (h | h | h)
    · exact Or.inl h
    · exact Or.inr ((walk_target_iff tree [n] none q).mp h)
    · right
      simp only [finalWrites, List.map_cons, List.map_nil, List.mem_cons,
        List.not_mem_nil, or_false, Op.target] at h
      rcases h with rfl | rfl | rfl | rfl
      · exact ⟨(["lucid-engine"], "README.md", false), by decide, by simp [entryPath]⟩
      · exact ⟨(["lucid-engine"], "LICENSE.md", false), by decide, by simp [entryPath]⟩
      · exact ⟨(["lucid-engine", "build"], "lucid-stack-builder.py", false), by decide,
          by simp [entryPath]⟩
      · exact ⟨(([], ".gitignore", false) : Path × String × Bool), by decide,
          by simp [entryPath]⟩
  · rintro (rfl | ⟨e, he, rfl⟩)
    · exact Or.inl rfl
    · exact Or.inr (Or.inl ((walk_target_iff tree [n] none _).mpr ⟨e, he, rfl⟩))

/-- C2, counterexample: the claim "after a run, every non-ignored leaf with a
recognized source-code extension contains exactly the TODO line" fails at
`<project>/lucid-engine/build/lucid-stack-builder.py`: it is a non-ignored `.py`
leaf, yet after the run it contains the fixed build-script text, which the
post-walk overwrite put there, not the TODO line. -/
theorem claim_C2_cex :
    default_ignore.contains "lucid-stack-builder.py" = false ∧
    isCodeFile "lucid-stack-builder.py" = true ∧
    lookupFS (run [] (mainOps "Demo"))
      ["Demo", "lucid-engine", "build", "lucid-stack-builder.py"] =
      some (.file builder_text) ∧
    builder_text ≠ todoLine "lucid-stack-builder.py" := by
  refine ⟨by decide, by decide, ?_, by decide⟩
  rw [show (["Demo", "lucid-engine", "build", "lucid-stack-builder.py"] : Path) =
      ["Demo"] ++ ["lucid-engine", "build", "lucid-stack-builder.py"] from rfl,
    main_run_eq]
  exact (finals_lookup _ "Demo").2.2.1

/-- C2, amended: after a run on a clean target, every leaf file whose name is not
in the Ignore Set — except `lucid-engine/build/lucid-stack-builder.py`, which the
post-walk overwrite fills with the build-script text — contains exactly the line
`// TODO: Implement <filename>` when its name has a recognized source-code
extension, and is empty otherwise. -/
theorem claim_C2 (n : String) (e : Path × String × Bool)
    (he : e ∈ flatten tree) (hb : e.2.2 = false)
    (hig : default_ignore.contains e.2.1 = false)
    (hex : e ≠ (["lucid-engine", "build"], "lucid-stack-builder.py", false)) :
    lookupFS (run [] (mainOps n)) (entryPath [n] e) =
      some (.file (if isCodeFile e.2.1 then todoLine e.2.1 else "")) := by
  rw [main_run_eq, finals_other]
  · rw [main_walk_lookup n e he]
    have hig' : e.2.1 ∉ default_ignore := by simpa using hig
    simp [entryVal, hb, hig']
  · intro hc
    have hX := entryPath_split n e _ hc
    have hX' : e.1 ++ [e.2.1] = ["lucid-engine"] ++ ["README.md"] := by
      rw [hX]
      rfl
    have hm := (concat_inj hX').2
    rw [hm] at hig
    exact absurd hig (by decide)
  · intro hc
    have hX := entryPath_split n e _ hc
    have hX' : e.1 ++ [e.2.1] = ["lucid-engine"] ++ ["LICENSE.md"] := by
      rw [hX]
      rfl
    have hm := (concat_inj hX').2
    rw [hm] at hig
    exact absurd hig (by decide)
  · intro hc
    have hX := entryPath_split n e _ hc
    have hX' : e.1 ++ [e.2.1] =
        ["lucid-engine", "build"] ++ ["lucid-stack-builder.py"] := by
      rw [hX]
      rfl
    obtain ⟨h1, h2⟩ := concat_inj hX'
    apply hex
    obtain ⟨p, m, bb⟩ := e
    dsimp only at h1 h2 hb
    subst h1
    subst h2
    subst hb
    rfl
  · intro hc
    have hX := entryPath_split n e _ hc
    have hX' : e.1 ++ [e.2.1] = ([] : Path) ++ [".gitignore"] := by
      rw [hX]
      rfl
    have hm := (concat_inj hX').2
    rw [hm] at hig
    exact absurd hig (by decide)

/-- Witness for the amended C2 at the `lib.rs` leaf of the `unicity` crate. -/
theorem claim_C2_witness :
    lookupFS (run [] (mainOps "Demo"))
      (entryPath ["Demo"] ((["lucid-engine", "workspaces", "meta", "unicity", "src"],
        "lib.rs", false) : Path × String × Bool)) =
      some (.file (if isCodeFile "lib.rs" then todoLine "lib.rs" else "")) :=
  claim_C2 "Demo" _ (by decide) rfl (by decide) (by decide)

/-- C3, counterexample: the claim "after a run, every file whose name is in the
Ignore Set is present and empty" fails at `Demo/lucid-engine/README.md`: it is in
the Ignore Set, yet after the run it holds the fixed README text written by the
post-walk overwrite, which is not empty. -/
theorem claim_C3_cex :
    ("README.md" ∈ default_ignore) ∧
    lookupFS (run [] (mainOps "Demo")) ["Demo", "lucid-engine", "README.md"] =
      some (.file readme_text) ∧
    readme_text ≠ "" := by
  refine ⟨by decide, ?_, by decide⟩
  rw [show (["Demo", "lucid-engine", "README.md"] : Path) =
      ["Demo"] ++ ["lucid-engine", "README.md"] from rfl, main_run_eq]
  exact (finals_lookup _ "Demo").1

/-- C3, amended: after a run (and still after a second run against the same base
path) every Ignore-Set leaf is present on disk; those other than
`lucid-engine/README.md`, `lucid-engine/LICENSE.md` and the top-level `.gitignore`
(which the post-walk overwrites fill with fixed text) are moreover empty after the
first run and still empty after the second. -/
theorem claim_C3 (n : String) (e : Path × String × Bool)
    (he : e ∈ flatten tree) (hb : e.2.2 = false)
    (hig : default_ignore.contains e.2.1 = true) :
    ((lookupFS (run [] (mainOps n)) (entryPath [n] e)).isSome = true ∧
      (lookupFS (run (run [] (mainOps n)) (mainOps n))
        (entryPath [n] e)).isSome = true) ∧
    (e.1 ++ [e.2.1] ∉ [["lucid-engine", "README.md"], ["lucid-engine", "LICENSE.md"],
        [".gitignore"]] →
      lookupFS (run [] (mainOps n)) (entryPath [n] e) = some (.file "") ∧
      lookupFS (run (run [] (mainOps n)) (mainOps n)) (entryPath [n] e) =
        some (.file "")) := by
  have hpres1 : (lookupFS (run [] (mainOps n)) (entryPath [n] e)).isSome = true := by
    rw [isSome_lookupFS_run]
    right
    rw [mainOps_eq]
    simp only [List.map_cons, List.map_append, List.mem_cons, List.mem_append]
    exact Or.inr (Or.inl ((walk_target_iff tree [n] none _).mpr ⟨e, he, rfl⟩))
  refine ⟨⟨hpres1, isSome_lookupFS_run_mono _ _ _ hpres1⟩, ?_⟩
  intro hex
  have hval : lookupFS (run [] (mainOps n)) (entryPath [n] e) = some (.file "") := by
    rw [main_run_eq, finals_other]
    · rw [main_walk_lookup n e he]
      have hig' : e.2.1 ∈ default_ignore := by simpa using hig
      simp [entryVal, hb, hig']
    · intro hc
      exact hex (by rw [entryPath_split n e _ hc]; decide)
    · intro hc
      exact hex (by rw [entryPath_split n e _ hc]; decide)
    · intro hc
      have hX := entryPath_split n e _ hc
      have hX' : e.1 ++ [e.2.1] =
          ["lucid-engine", "build"] ++ ["lucid-stack-builder.py"] := by
        rw [hX]
        rfl
      have hm := (concat_inj hX').2
      rw [hm] at hig
      exact absurd hig (by decide)
    · intro hc
      exact hex (by rw [entryPath_split n e _ hc]; decide)
  refine ⟨hval, ?_⟩
  rw [lookupFS_run_touch_only _ _ _ (main_only_touch n e he hb hig hex)
    (by rw [hval]; rfl), hval]

/-- Witness for the amended C3 at the `CMakeLists.txt` leaf under `build`. -/
theorem claim_C3_witness :
    lookupFS (run [] (mainOps "Demo"))
      (entryPath ["Demo"] ((["lucid-engine", "build"], "CMakeLists.txt", false) :
        Path × String × Bool)) = some (.file "") ∧
    lookupFS (run (run [] (mainOps "Demo")) (mainOps "Demo"))
      (entryPath ["Demo"] ((["lucid-engine", "build"], "CMakeLists.txt", false) :
        Path × String × Bool)) = some (.file "") :=
  (claim_C3 "Demo" _ (by decide) rfl (by decide)).2 (by decide)

/-- C4: after every run, unconditionally, the four designated files — the README,
the license file, the build-script placeholder and the ignore-file — contain
exactly their fixed literal texts. -/
theorem claim_C4 (n : String) :
    lookupFS (run [] (mainOps n)) ([n] ++ ["lucid-engine", "README.md"]) =
      some (.file readme_text) ∧
    lookupFS (run [] (mainOps n)) ([n] ++ ["lucid-engine", "LICENSE.md"]) =
      some (.file license_text) ∧
    lookupFS (run [] (mainOps n))
      ([n] ++ ["lucid-engine", "build", "lucid-stack-builder.py"]) =
      some (.file builder_text) ∧
    lookupFS (run [] (mainOps n)) ([n] ++ [".gitignore"]) =
      some (.file gitignore_text) := by
  rw [main_run_eq]
  exact finals_lookup _ n

/-- C5: running the scaffold twice in succession against the same base path raises
no error — the error-aware semantics succeeds on the first run from a clean state
and again on the second run from the resulting state — and the second run creates
no path that the first run did not create (the two states have entries at exactly
the same paths). -/
theorem claim_C5 (n : String) :
    ∃ fs1 fs2, runO [] (mainOps n) = some fs1 ∧ runO fs1 (mainOps n) = some fs2 ∧
      ∀ q, (lookupFS fs2 q).isSome = (lookupFS fs1 q).isSome := by
  have h1 := main_first_success n
  obtain ⟨fs2, h2, hkind⟩ := runO_again [] (run [] (mainOps n)) (run [] (mainOps n))
    (mainOps n) h1 (fun _ => rfl)
  refine ⟨run [] (mainOps n), fs2, h1, h2, ?_⟩
  intro q
  have hk := congrArg Option.isSome (hkind q)
  simpa [kindAt, Option.isSome_map] using hk

/-- C6: with project name `"Demo"`, the run produces
`Demo/lucid-engine/README.md` whose content starts with `# Lucid Engine`,
`Demo/lucid-engine/workspaces/meta/unicity/src/lib.rs` containing the line
`// TODO: Implement lib.rs`, and `Demo/lucid-engine/build/CMakeLists.txt` empty
(its name is in the Ignore Set). -/
theorem claim_C6 :
    lookupFS (run [] (mainOps "Demo")) ["Demo", "lucid-engine", "README.md"] =
      some (.file readme_text) ∧
    pyStartsWith readme_text "# Lucid Engine" = true ∧
    lookupFS (run [] (mainOps "Demo"))
      ["Demo", "lucid-engine", "workspaces", "meta", "unicity", "src", "lib.rs"] =
      some (.file (todoLine "lib.rs")) ∧
    todoLine "lib.rs" = "// TODO: Implement lib.rs\n" ∧
    lookupFS (run [] (mainOps "Demo"))
      ["Demo", "lucid-engine", "build", "CMakeLists.txt"] = some (.file "") := by
  refine ⟨?_, by decide, ?_, by decide, ?_⟩
  · rw [show (["Demo", "lucid-engine", "README.md"] : Path) =
        ["Demo"] ++ ["lucid-engine", "README.md"] from rfl, main_run_eq]
    exact (finals_lookup _ "Demo").1
  · rw [show (["Demo", "lucid-engine", "workspaces", "meta", "unicity", "src",
        "lib.rs"] : Path) = entryPath ["Demo"]
        ((["lucid-engine", "workspaces", "meta", "unicity", "src"], "lib.rs", false) :
          Path × String × Bool) from rfl, main_run_eq, finals_other]
    · rw [main_walk_lookup "Demo" _ (by decide)]
      decide
    · decide
    · decide
    · decide
    · decide
  · rw [show (["Demo", "lucid-engine", "build", "CMakeLists.txt"] : Path) =
        entryPath ["Demo"] ((["lucid-engine", "build"], "CMakeLists.txt", false) :
          Path × String × Bool) from rfl, main_run_eq, finals_other]
    · rw [main_walk_lookup "Demo" _ (by decide)]
      decide
    · decide
    · decide
    · decide
    · decide

/-- C7: the script has no error handling, so against any failure oracle a run
performs exactly the operations before the first failing one (their effects remain
on disk — no rollback), nothing after it (no retry, no recovery), and completes
iff no operation fails. -/
theorem claim_C7 (n : String) (fail : Op → Bool) (fs : FS) :
    runE fail fs (mainOps n) =
      (run fs ((mainOps n).takeWhile fun op => !fail op),
        (mainOps n).all fun op => !fail op) :=
  runE_eq fail fs (mainOps n)

/-- C8: invoking the program with no command-line argument is the same as invoking
it with the fixed default project name `"MyLucidGame"` — the traces coincide — and
it produces a root directory named after that default. -/
theorem claim_C8 :
    scaffold [] = mainOps "MyLucidGame" ∧
    scaffold [] = scaffold ["MyLucidGame"] ∧
    lookupFS (run [] (scaffold [])) ["MyLucidGame"] = some .dir := by
  refine ⟨rfl, rfl, ?_⟩
  show lookupFS (run [] (mainOps "MyLucidGame")) ["MyLucidGame"] = some .dir
  rw [mainOps_eq, run_cons, run_append]
  rw [lookupFS_run_no_target, lookupFS_run_no_target]
  · decide
  · intro op hop
    have hl := walk_target_long tree ["MyLucidGame"] none op hop
    intro hc
    rw [hc] at hl
    simp at hl
  · intro op hop
    simp only [finalWrites, List.mem_cons, List.not_mem_nil, or_false] at hop
    rcases hop with rfl | rfl | rfl | rfl <;> decide

/-- C9: the materializer is a total structurally recursive function (each recursive
call is on a strictly smaller sub-description), and it visits each entry of the
Tree Description exactly once: the list of its creation operations' paths equals,
in order, the flattening of the description. -/
theorem claim_C9 (base : Path) (t : Tree) (ig : Option (List String)) :
    (create_directory_tree base t ig).filterMap createTarget =
      (flatten t).map (entryPath base) :=
  walk_filterMap_create t base ig

/-- C10: a caller-supplied ignore set only affects the top level of the walk: the
recursive call on a subdirectory omits the argument, so at every entry of depth two
or more the state left on disk is the same as with the built-in default Ignore Set,
whatever the caller passed. -/
theorem claim_C10 (igArg : List String) (base : Path) (t : Tree) (fs : FS)
    (hWF : WFb t = true)
    (hclean : ∀ e ∈ flatten t, lookupFS fs (entryPath base e) = none)
    (e : Path × String × Bool) (he : e ∈ flatten t) (hdeep : e.1 ≠ []) :
    lookupFS (run fs (create_directory_tree base t (some igArg)))
        (entryPath base e) =
      lookupFS (run fs (create_directory_tree base t none)) (entryPath base e) := by
  rw [walk_lookup t base (some igArg) fs hWF hclean e he,
    walk_lookup t base none fs hWF hclean e he]
  cases h1 : e.1 with
  | nil => exact absurd h1 hdeep
  | cons a l => simp [ignoreAt, h1]

/-- Witness for C10: a caller passing `["x.rs"]` does not change what lands at the
depth-two entry `a/x.rs` of a small description. -/
theorem claim_C10_witness :
    lookupFS (run [] (create_directory_tree []
        (.dir "a" (.file "x.rs" .nil) .nil) (some ["x.rs"])))
      (entryPath [] ((["a"], "x.rs", false) : Path × String × Bool)) =
    lookupFS (run [] (create_directory_tree []
        (.dir "a" (.file "x.rs" .nil) .nil) none))
      (entryPath [] ((["a"], "x.rs", false) : Path × String × Bool)) :=
  claim_C10 ["x.rs"] [] (.dir "a" (.file "x.rs" .nil) .nil) [] (by decide)
    (by decide) (["a"], "x.rs", false) (by decide) (by decide)

end LucidScaffold
